import Mathlib

/-!
Shallow embedding of the trace-driven OS-kernel simulator in
`interrupts.cpp` / `interrupts.hpp` (Part 3/4 variant).

The C++ program accumulates the execution log as one string of lines
`"<timestamp>, <duration>, <description>\n"`.  Here every handler produces a
list of structured `LogEntry` records carrying exactly the timestamp,
duration and description texts the C++ code concatenates; `render_entry`
reproduces the textual rendering.  A C++ `std::vector::at` that throws
(uncaught, so the process terminates and no output file is written) and an
out-of-range `operator[]` (undefined behaviour, documented in the design as a
fatal indexing error with no defined recovery) are both modelled as `none`:
the whole run is discarded.  Machine integers are modelled as `Int`/`Nat`
(32-bit wraparound never matters for any value reachable in these claims).
-/

namespace OsSim

/-- Memory partition record (`struct Partition`): `number` and `size` are
`unsigned int`, `code` holds `"free"` or an occupying program name. -/
structure Partition where
  number : Nat
  size : Nat
  code : String
deriving Repr, DecidableEq

/-- Process control block (`struct PCB`). -/
structure PCB where
  pid : Int
  ppid : Int
  program_name : String
  partition_number : Int
  size : Int
  state : String
  priority : Int
deriving Repr, DecidableEq

/-- Catalog entry of a program on the simulated disk (`struct ExternalFile`). -/
structure ExternalFile where
  program_name : String
  size : Nat
deriving Repr, DecidableEq

/-- One line of the execution log: `(timestamp, duration, description)`. -/
structure LogEntry where
  t : Int
  d : Int
  desc : String
deriving Repr, DecidableEq

/-- Rendering of a log entry exactly as the C++ string concatenations build it. -/
def render_entry (e : LogEntry) : String :=
  toString e.t ++ ", " ++ toString e.d ++ ", " ++ e.desc ++ "\n"

/-- `#define ADDR_BASE 0` -/
def ADDR_BASE : Nat := 0

/-- `#define VECTOR_SIZE 2` -/
def VECTOR_SIZE : Nat := 2

/-- Checked vector indexing with a C++ `int` index: `xs.at(i)` (and the
out-of-range `operator[]`, modelled identically as a fatal abort). -/
def vecAt {α : Type} (xs : List α) (i : Int) : Option α :=
  if 0 ≤ i then xs.get? i.toNat else none

/-- Uppercase hexadecimal digits, as produced by `%X`. -/
def hexDigit (n : Nat) : Char :=
  if n < 10 then Char.ofNat (48 + n) else Char.ofNat (55 + n)

/-- Hexadecimal digit list, most significant first (`fuel ≥ n` suffices since
each step divides by 16). -/
def hexCharsAux : Nat → Nat → List Char
  | 0, n => [hexDigit (n % 16)]
  | fuel + 1, n =>
    if n < 16 then [hexDigit n]
    else hexCharsAux fuel (n / 16) ++ [hexDigit (n % 16)]

/-- Hexadecimal digit list of `n`, most significant first. -/
def hexChars (n : Nat) : List Char := hexCharsAux n n

/-- `sprintf("0x%04X", n)` for a non-negative value: `0x`-prefixed uppercase
hexadecimal, zero-padded to at least four digits. -/
def hexPad4 (n : Nat) : String :=
  let ds := hexChars n
  "0x" ++ String.mk (List.replicate (4 - ds.length) '0' ++ ds)

/-- The whole global mutable state of the simulator
(the globals defined at the top of `interrupts.cpp`). -/
structure SimState where
  partition_table : List Partition
  pcb_table : List PCB
  ready_queue : List Int
  parent_child_map : List (Int × Int)
  next_pid : Int
deriving Repr, DecidableEq

/-- The five fixed memory partitions created by `initialize_system`. -/
def initial_partitions : List Partition :=
  [⟨0, 40, "free"⟩, ⟨1, 25, "free"⟩, ⟨2, 15, "free"⟩, ⟨3, 10, "free"⟩, ⟨4, 8, "free"⟩]

/-- The init process (PID 0) created by `initialize_system`. -/
def init_process : PCB :=
  { pid := 0, ppid := -1, program_name := "init", partition_number := 5,
    size := 0, state := "running", priority := 0 }

/-- `initialize_system`: partitions, init process, ready queue `[0]`, `next_pid = 1`. -/
def initialize_system : SimState :=
  { partition_table := initial_partitions
    pcb_table := [init_process]
    ready_queue := [0]
    parent_child_map := []
    next_pid := 1 }

/-- `find_available_partition`: first-fit scan of the partition table in table
order; returns the partition number of the first free partition whose size is
at least `program_size`, else `-1`. -/
def find_available_partition (pt : List Partition) (program_size : Nat) : Int :=
  match pt with
  | [] => -1
  | p :: rest =>
    if p.code = "free" ∧ program_size ≤ p.size then (p.number : Int)
    else find_available_partition rest program_size

/-- The in-place marking loop of `handle_exec`: sets `code` of the first
partition whose number equals `target` (the loop `break`s after one hit). -/
def mark_partition (pt : List Partition) (target : Int) (name : String) :
    List Partition :=
  match pt with
  | [] => []
  | p :: rest =>
    if (p.number : Int) = target then { p with code := name } :: rest
    else p :: mark_partition rest target name

/-- The in-place PCB-update loop of `handle_exec`: overwrites `program_name`,
`partition_number` and `size` of the first PCB whose pid matches (`break`s
after one hit). -/
def update_pcb (tbl : List PCB) (pid : Int) (name : String)
    (part : Int) (sz : Int) : List PCB :=
  match tbl with
  | [] => []
  | p :: rest =>
    if p.pid = pid then
      { p with program_name := name, partition_number := part, size := sz } :: rest
    else p :: update_pcb rest pid name part sz

/-- `intr_boilerplate`: the fixed four-step interrupt-entry sequence.  The
vector-table read `vectors.at(intr_num)` throws on an out-of-range index,
which terminates the C++ process before any output is written (`none`). -/
def intr_boilerplate (current_time : Int) (intr_num : Int)
    (context_save_time : Int) (vectors : List String) :
    Option (List LogEntry × Int) := do
  let v ← vecAt vectors intr_num
  let e1 : LogEntry := ⟨current_time, 1, "switch to kernel mode"⟩
  let t1 := current_time + 1
  let e2 : LogEntry := ⟨t1, context_save_time, "context saved"⟩
  let t2 := t1 + context_save_time
  let vector_address := hexPad4 (ADDR_BASE + intr_num.toNat * VECTOR_SIZE)
  let e3 : LogEntry := ⟨t2, 1,
    "find vector " ++ toString intr_num ++ " in memory position " ++ vector_address⟩
  let t3 := t2 + 1
  let e4 : LogEntry := ⟨t3, 1, "load address " ++ v ++ " into the PC"⟩
  some ([e1, e2, e3, e4], t3 + 1)

/-- `execute_iret`: one entry `"IRET"` of duration 1. -/
def execute_iret (t : Int) : LogEntry × Int :=
  (⟨t, 1, "IRET"⟩, t + 1)

/-- `restore_context`: one entry `"context restored"` of duration 10. -/
def restore_context (t : Int) : LogEntry × Int :=
  (⟨t, 10, "context restored"⟩, t + 10)

/-- `switch_to_user_mode`: one entry `"switch to user mode"` of duration 1. -/
def switch_to_user_mode (t : Int) : LogEntry × Int :=
  (⟨t, 1, "switch to user mode"⟩, t + 1)

/-- The fixed exit sequence every handler runs last:
IRET, restore context, switch to user mode (in the source these are the three
consecutive calls at the end of each handler). -/
def exit_sequence (t : Int) : List LogEntry × Int :=
  let (e1, t1) := execute_iret t
  let (e2, t2) := restore_context t1
  let (e3, t3) := switch_to_user_mode t2
  ([e1, e2, e3], t3)

/-- `simulate_cpu`: one `"CPU execution"` entry of the given duration. -/
def simulate_cpu (duration : Int) (t : Int) : LogEntry × Int :=
  (⟨t, duration, "CPU execution"⟩, t + duration)

/-- `execute_isr`: reads `delays[device_num]` (out-of-range access is the
undefined fatal indexing error, modelled as abort) and logs one ISR entry. -/
def execute_isr (device_num : Int) (t : Int) (delays : List Int)
    (isr_type : String) : Option (LogEntry × Int) := do
  let isr_delay ← vecAt delays device_num
  some (⟨t, isr_delay, isr_type ++ ": run the ISR"⟩, t + isr_delay)

/-- `handle_interrupt`: boilerplate, ISR, then the fixed exit sequence. -/
def handle_interrupt (device_num : Int) (t : Int) (vectors : List String)
    (delays : List Int) (interrupt_type : String) :
    Option (List LogEntry × Int) := do
  let (boiler, t1) ← intr_boilerplate t device_num 10 vectors
  let (isr, t2) ← execute_isr device_num t1 delays interrupt_type
  let (ex, t3) := exit_sequence t2
  some (boiler ++ [isr] ++ ex, t3)

/-- `handle_fork`: boilerplate on vector 2, clone of the calling PCB (or an
error entry when the caller is absent), scheduler marker, exit sequence. -/
def handle_fork (current_time : Int) (vectors : List String) (current_pid : Int)
    (s : SimState) : Option (List LogEntry × Int × SimState) := do
  let (boiler, t1) ← intr_boilerplate current_time 2 10 vectors
  match s.pcb_table.find? (fun p => p.pid == current_pid) with
  | none =>
    let err : LogEntry := ⟨t1, 1, "ERROR: Parent not found"⟩
    let (ex, t2) := exit_sequence (t1 + 1)
    some (boiler ++ [err] ++ ex, t2, s)
  | some parent =>
    let child : PCB :=
      { parent with pid := s.next_pid, ppid := current_pid, priority := 1 }
    let s1 : SimState :=
      { s with pcb_table := s.pcb_table ++ [child]
               parent_child_map := s.parent_child_map ++ [(current_pid, child.pid)]
               ready_queue := s.ready_queue ++ [child.pid]
               next_pid := s.next_pid + 1 }
    let eClone : LogEntry := ⟨t1, 1, "cloning the PCB"⟩
    let t2 := t1 + 1
    let eSched : LogEntry := ⟨t2, 0, "scheduler called"⟩
    let (ex, t3) := exit_sequence t2
    some (boiler ++ [eClone, eSched] ++ ex, t3, s1)

/-- `handle_exec`: boilerplate on vector 3, catalog lookup, first-fit
partition search, disk load at 15 per MB, partition marking, PCB update,
scheduler marker, exit sequence (error entries on the two failure paths). -/
def handle_exec (program_name : String) (current_time : Int)
    (vectors : List String) (external_files : List ExternalFile)
    (current_pid : Int) (s : SimState) :
    Option (List LogEntry × Int × SimState) := do
  let (boiler, t1) ← intr_boilerplate current_time 3 10 vectors
  match external_files.find? (fun f => f.program_name == program_name) with
  | none =>
    let err : LogEntry := ⟨t1, 1, "ERROR: Program not found"⟩
    let (ex, t2) := exit_sequence (t1 + 1)
    some (boiler ++ [err] ++ ex, t2, s)
  | some file =>
    let program_size := file.size
    let partition_to_use := find_available_partition s.partition_table program_size
    if partition_to_use = -1 then
      let err : LogEntry := ⟨t1, 1, "ERROR: No partition"⟩
      let (ex, t2) := exit_sequence (t1 + 1)
      some (boiler ++ [err] ++ ex, t2, s)
    else
      let pt1 := mark_partition s.partition_table partition_to_use program_name
      let loader_time : Int := (program_size : Int) * 15
      let eLoad : LogEntry := ⟨t1, loader_time,
        "loading " ++ program_name ++ " from disk to partition "
          ++ toString partition_to_use⟩
      let t2 := t1 + loader_time
      let eMark : LogEntry := ⟨t2, 1, "marking partition as occupied"⟩
      let t3 := t2 + 1
      let eUpd : LogEntry := ⟨t3, 3, "updating PCB"⟩
      let t4 := t3 + 3
      let pcb1 := update_pcb s.pcb_table current_pid program_name
                    partition_to_use (program_size : Int)
      let eSched : LogEntry := ⟨t4, 0, "scheduler called"⟩
      let (ex, t5) := exit_sequence t4
      some (boiler ++ [eLoad, eMark, eUpd, eSched] ++ ex, t5,
            { s with partition_table := pt1, pcb_table := pcb1 })

/-- Character-level splitting loop of `split_delim`: repeatedly cut at the
first occurrence of the (non-empty) delimiter, exactly as the C++
`find`/`erase` loop does.  (Both call sites pass `","`; for an empty
delimiter the C++ loop would never terminate, here it yields one token.) -/
def split_chars (delim : List Char) : Nat → List Char → List (List Char)
  | _, [] => [[]]
  | 0, input => [input]
  | fuel + 1, c :: rest =>
    if delim ≠ [] ∧ delim.isPrefixOf (c :: rest) then
      [] :: split_chars delim fuel ((c :: rest).drop delim.length)
    else
      match split_chars delim fuel rest with
      | [] => [[c]]
      | tok :: toks => (c :: tok) :: toks

/-- `split_delim`: split on every occurrence of the delimiter.  The fuel
argument of the loop is the input length, which every iteration of the C++
`find`/`erase` loop strictly decreases (for the delimiter `","` both call
sites use), so the fuel is never exhausted. -/
def split_delim (input : String) (delim : String) : List String :=
  (split_chars delim.toList input.toList.length input.toList).map
    fun cs => String.mk cs

/-- The whitespace characters skipped by `std::stoi`. -/
def cppIsSpace (c : Char) : Bool :=
  c = ' ' || c = '\t' || c = '\n' || c = '\x0b' || c = '\x0c' || c = '\r'

/-- Model of `std::stoi` on `int`: skip leading whitespace, optional sign,
longest digit prefix; `none` when there is no digit or the value does not fit
in a 32-bit `int` (both cases throw in C++). -/
def cppStoi (s : String) : Option Int :=
  let cs := s.toList.dropWhile cppIsSpace
  let signed : Int × List Char :=
    match cs with
    | '-' :: rest => (-1, rest)
    | '+' :: rest => (1, rest)
    | _ => (1, cs)
  let digits := signed.2.takeWhile Char.isDigit
  if digits.isEmpty then none
  else
    let n : Nat := digits.foldl (fun a c => a * 10 + (c.toNat - 48)) 0
    let v : Int := signed.1 * n
    if v < -(2 ^ 31) ∨ 2 ^ 31 - 1 < v then none else some v

/-- `parse_trace`: split the line on commas; fewer than two fields gives the
null event `("null", -1)`, otherwise the activity is the first field and the
value is `stoi` of the second, defaulting to `-1` when `stoi` throws. -/
def parse_trace (trace : String) : String × Int :=
  match split_delim trace "," with
  | a :: b :: _ => (a, (cppStoi b).getD (-1))
  | _ => ("null", -1)

/-- `std::string::substr(pos)`: suffix from `pos`; throws `out_of_range`
(modelled as abort) when `pos` exceeds the length. -/
def cppSubstrFrom (s : String) (pos : Nat) : Option String :=
  if pos ≤ s.length then some (s.drop pos) else none

/-- The local state of `main`'s event loop: the global tables plus
`current_time`, `current_pid` and the conditional-block bookkeeping. -/
structure InterpState where
  sys : SimState
  current_time : Int
  current_pid : Int
  in_child_block : Bool
  in_parent_block : Bool
  block_pid : Int
deriving Repr, DecidableEq

/-- The state of `main` just before the event loop. -/
def initial_interp : InterpState :=
  { sys := initialize_system, current_time := 0, current_pid := 0,
    in_child_block := false, in_parent_block := false, block_pid := -1 }

/-- One iteration of `main`'s event loop: parse the line and dispatch through
the `if`/`else if` chain (any unmatched activity falls through unprocessed). -/
def process_line (vectors : List String) (delays : List Int)
    (external_files : List ExternalFile) (st : InterpState) (trace : String) :
    Option (List LogEntry × InterpState) :=
  let av := parse_trace trace
  let activity := av.1
  let value := av.2
  if activity = "CPU" then
    let r := simulate_cpu value st.current_time
    some ([r.1], { st with current_time := r.2 })
  else if activity = "FORK" then
    match handle_fork st.current_time vectors st.current_pid st.sys with
    | none => none
    | some (log, t1, s1) => some (log, { st with current_time := t1, sys := s1 })
  else if activity = "IF_CHILD" then
    some ([], { st with in_child_block := true, in_parent_block := false,
                        block_pid := value })
  else if activity = "IF_PARENT" then
    some ([], { st with in_child_block := false, in_parent_block := true,
                        block_pid := value })
  else if activity = "ENDIF" then
    some ([], { st with in_child_block := false, in_parent_block := false,
                        block_pid := -1 })
  else if activity.take 4 = "EXEC" then
    match cppSubstrFrom activity 5 with
    | none => none
    | some program_name =>
      match handle_exec program_name st.current_time vectors external_files
              st.current_pid st.sys with
      | none => none
      | some (log, t1, s1) => some (log, { st with current_time := t1, sys := s1 })
  else if activity = "SYSCALL" ∨ activity = "END_IO" then
    match handle_interrupt value st.current_time vectors delays activity with
    | none => none
    | some (log, t1) => some (log, { st with current_time := t1 })
  else
    some ([], st)

/-- `main`'s event loop over the whole trace file, accumulating the log. -/
def run_trace (vectors : List String) (delays : List Int)
    (external_files : List ExternalFile) :
    List String → InterpState → Option (List LogEntry × InterpState)
  | [], st => some ([], st)
  | line :: rest, st => do
    let (log1, st1) ← process_line vectors delays external_files st line
    let (log2, st2) ← run_trace vectors delays external_files rest st1
    some (log1 ++ log2, st2)

/-- A whole run of `main` (after the out-of-scope file loading): process the
trace lines from the initial state built by `initialize_system`. -/
def simulate (lines : List String) (vectors : List String) (delays : List Int)
    (external_files : List ExternalFile) :
    Option (List LogEntry × InterpState) :=
  run_trace vectors delays external_files lines initial_interp

/-- The four fixed interrupt-entry log entries produced by `intr_boilerplate`
with the standard context-save time 10, spelled out with their timestamps,
durations, the hexadecimal vector address and the vector-table entry `v`. -/
def boiler_entries (t : Int) (n : Int) (v : String) : List LogEntry :=
  [⟨t, 1, "switch to kernel mode"⟩,
   ⟨t + 1, 10, "context saved"⟩,
   ⟨t + 11, 1, "find vector " ++ toString n ++ " in memory position "
      ++ hexPad4 (ADDR_BASE + n.toNat * VECTOR_SIZE)⟩,
   ⟨t + 12, 1, "load address " ++ v ++ " into the PC"⟩]

/-- The three fixed exit-sequence log entries, spelled out. -/
def exit_entries (t : Int) : List LogEntry :=
  [⟨t, 1, "IRET"⟩, ⟨t + 1, 10, "context restored"⟩,
   ⟨t + 11, 1, "switch to user mode"⟩]

/-- Invariant of the pid counter: every pid already in the process table is
strictly below `next_pid`.  It holds in the state built by `initialize_system`
and is preserved by every event (see the preservation lemmas below), so the
pid handed to each forked child is fresh and strictly above all others. -/
@[reducible] def PidInv (s : SimState) : Prop :=
  ∀ p ∈ s.pcb_table, p.pid < s.next_pid

/-- Timestamp discipline of a log fragment produced between clock values `t`
and `t2`: the clock does not go backward, the entry timestamps are
non-decreasing and lie between `t` and `t2`, the first entry (if any) is
stamped exactly `t`, and an empty fragment leaves the clock at `t`. -/
def StampsFrom (t : Int) (l : List LogEntry) (t2 : Int) : Prop :=
  t ≤ t2
  ∧ l.Pairwise (fun a b => a.t ≤ b.t)
  ∧ (∀ e ∈ l, t ≤ e.t ∧ e.t ≤ t2)
  ∧ (∀ e, l.head? = some e → e.t = t)
  ∧ (l = [] → t2 = t)

theorem vecAt_mem {α : Type} {xs : List α} {i : Int} {v : α}
    (h : vecAt xs i = some v) : v ∈ xs := by
  unfold vecAt at h
  split at h
  · exact List.get?_mem h
  · exact absurd h (by simp)

theorem vecAt_eq_none_iff {α : Type} (xs : List α) (i : Int) :
    vecAt xs i = none ↔ ¬ (0 ≤ i ∧ i.toNat < xs.length) := by
  unfold vecAt
  split
  · next hi =>
    simp only [List.get?_eq_none]
    omega
  · next hi => simp [hi]

theorem exit_sequence_eq (t : Int) :
    exit_sequence t = (exit_entries t, t + 12) := by
  simp only [exit_sequence, execute_iret, restore_context, switch_to_user_mode,
    exit_entries, Prod.mk.injEq, List.cons.injEq, LogEntry.mk.injEq, and_true,
    true_and]
  omega

theorem intr_boilerplate_eq {vectors : List String} {n : Int} {v : String}
    (hv : vecAt vectors n = some v) (t : Int) :
    intr_boilerplate t n 10 vectors = some (boiler_entries t n v, t + 13) := by
  simp only [intr_boilerplate, hv, Option.bind_eq_bind, Option.some_bind,
    boiler_entries, Option.some.injEq, Prod.mk.injEq, List.cons.injEq,
    LogEntry.mk.injEq, and_true, true_and]
  omega

/-- C1: the canonical golden trace.  Running the two events `CPU,50` then
`SYSCALL,0` with vector table `["v0"]` and delay table `[20]` produces the log
that begins with the entry rendered `"0, 50, CPU execution"`, continues with
the 4-step interrupt-entry sequence starting at timestamp 50, one ISR entry of
duration 20, then the IRET, restore-context and switch-to-user-mode entries,
and leaves the final clock at 95 = 50 + 13 + 20 + 12. -/
theorem c1_golden_trace :
    simulate ["CPU,50", "SYSCALL,0"] ["v0"] [20] [] =
      some ([⟨0, 50, "CPU execution"⟩,
             ⟨50, 1, "switch to kernel mode"⟩,
             ⟨51, 10, "context saved"⟩,
             ⟨61, 1, "find vector 0 in memory position 0x0000"⟩,
             ⟨62, 1, "load address v0 into the PC"⟩,
             ⟨63, 20, "SYSCALL: run the ISR"⟩,
             ⟨83, 1, "IRET"⟩,
             ⟨84, 10, "context restored"⟩,
             ⟨94, 1, "switch to user mode"⟩],
            { initial_interp with current_time := 95 })
    ∧ render_entry ⟨0, 50, "CPU execution"⟩ = "0, 50, CPU execution\n" := by
  exact ⟨by decide, by decide⟩

/-- C2: every FORK (vector 2), EXEC (vector 3), SYSCALL and END_IO handler
whose interrupt number is within the vector table first emits exactly the
4-step entry sequence — switch-to-kernel-mode (1), context-saved (10),
find-vector (1, logging `ADDR_BASE + n * VECTOR_SIZE` in fixed-width
hexadecimal), load-vector-entry-into-PC (1, the entry read from the immutable
vector table) — and last emits, unconditionally and in this order,
return-from-interrupt (1), restore-context (10), switch-to-user-mode (1). -/
theorem c2_entry_and_exit_protocol
    (t : Int) (vectors : List String) (delays : List Int)
    (n : Int) (ty : String) :
    (∀ vn dn, vecAt vectors n = some vn → vecAt delays n = some dn →
      handle_interrupt n t vectors delays ty =
        some (boiler_entries t n vn
                ++ [⟨t + 13, dn, ty ++ ": run the ISR"⟩]
                ++ exit_entries (t + 13 + dn),
              t + 13 + dn + 12))
    ∧ (∀ v2 pid s, vecAt vectors 2 = some v2 → ∃ mid t2 s2,
        handle_fork t vectors pid s =
          some (boiler_entries t 2 v2 ++ mid ++ exit_entries t2, t2 + 12, s2))
    ∧ (∀ v3 name cat pid s, vecAt vectors 3 = some v3 → ∃ mid t2 s2,
        handle_exec name t vectors cat pid s =
          some (boiler_entries t 3 v3 ++ mid ++ exit_entries t2, t2 + 12, s2)) := by
  refine ⟨?_, ?_, ?_⟩
  · intro vn dn hvn hdn
    simp only [handle_interrupt, intr_boilerplate_eq hvn, execute_isr, hdn,
      Option.bind_eq_bind, Option.some_bind, exit_sequence_eq]
  · intro v2 pid s hv2
    cases hfind : s.pcb_table.find? (fun p => p.pid == pid) with
    | none =>
      refine ⟨[⟨t + 13, 1, "ERROR: Parent not found"⟩], t + 14, s, ?_⟩
      simp only [handle_fork, intr_boilerplate_eq hv2, Option.bind_eq_bind,
        Option.some_bind, hfind, exit_sequence_eq]
      rw [show t + 13 + 1 = t + 14 from by omega]
    | some parent =>
      refine ⟨[⟨t + 13, 1, "cloning the PCB"⟩, ⟨t + 14, 0, "scheduler called"⟩],
        t + 14,
        { s with
            pcb_table := s.pcb_table
              ++ [{ parent with pid := s.next_pid, ppid := pid, priority := 1 }]
            parent_child_map := s.parent_child_map ++ [(pid, s.next_pid)]
            ready_queue := s.ready_queue ++ [s.next_pid]
            next_pid := s.next_pid + 1 }, ?_⟩
      simp only [handle_fork, intr_boilerplate_eq hv2, Option.bind_eq_bind,
        Option.some_bind, hfind, exit_sequence_eq]
      rw [show t + 13 + 1 = t + 14 from by omega]
  · intro v3 name cat pid s hv3
    cases hfind : cat.find? (fun f => f.program_name == name) with
    | none =>
      refine ⟨[⟨t + 13, 1, "ERROR: Program not found"⟩], t + 14, s, ?_⟩
      simp only [handle_exec, intr_boilerplate_eq hv3, Option.bind_eq_bind,
        Option.some_bind, hfind, exit_sequence_eq]
      rw [show t + 13 + 1 = t + 14 from by omega]
    | some file =>
      by_cases hpart : find_available_partition s.partition_table file.size = -1
      · refine ⟨[⟨t + 13, 1, "ERROR: No partition"⟩], t + 14, s, ?_⟩
        simp only [handle_exec, intr_boilerplate_eq hv3, Option.bind_eq_bind,
          Option.some_bind, hfind, hpart, if_true, exit_sequence_eq]
        rw [show t + 13 + 1 = t + 14 from by omega]
      · refine ⟨[⟨t + 13, (file.size : Int) * 15,
            "loading " ++ name ++ " from disk to partition "
              ++ toString (find_available_partition s.partition_table file.size)⟩,
          ⟨t + 13 + (file.size : Int) * 15, 1, "marking partition as occupied"⟩,
          ⟨t + 13 + (file.size : Int) * 15 + 1, 3, "updating PCB"⟩,
          ⟨t + 13 + (file.size : Int) * 15 + 4, 0, "scheduler called"⟩],
          t + 13 + (file.size : Int) * 15 + 4,
          { s with
              partition_table := mark_partition s.partition_table
                (find_available_partition s.partition_table file.size) name
              pcb_table := update_pcb s.pcb_table pid name
                (find_available_partition s.partition_table file.size)
                (file.size : Int) }, ?_⟩
        simp only [handle_exec, intr_boilerplate_eq hv3, Option.bind_eq_bind,
          Option.some_bind, hfind, hpart, if_false, exit_sequence_eq]
        rw [show t + 13 + (file.size : Int) * 15 + 1 + 3
              = t + 13 + (file.size : Int) * 15 + 4 from by omega]

theorem find_available_partition_none_iff (pt : List Partition) (nsize : Nat) :
    find_available_partition pt nsize = -1 ↔
      ∀ p ∈ pt, ¬(p.code = "free" ∧ nsize ≤ p.size) := by
  induction pt with
  | nil => simp [find_available_partition]
  | cons p rest ih =>
    by_cases hp : p.code = "free" ∧ nsize ≤ p.size
    · simp only [find_available_partition, if_pos hp]
      constructor
      · intro hcast
        exfalso
        omega
      · intro hall
        exact absurd hp (hall p (by simp))
    · simp only [find_available_partition, if_neg hp, ih, List.mem_cons]
      constructor
      · intro hall q hq
        rcases hq with hq | hq
        · exact hq ▸ hp
        · exact hall q hq
      · intro hall q hq
        exact hall q (Or.inr hq)

theorem find_available_partition_first :
    ∀ (pt : List Partition) (nsize : Nat),
      pt.Pairwise (fun a b => a.number < b.number) →
      ∀ k, find_available_partition pt nsize = k → k ≠ -1 →
      ∃ p ∈ pt, (p.number : Int) = k ∧ p.code = "free" ∧ nsize ≤ p.size ∧
        ∀ q ∈ pt, q.number < p.number → ¬(q.code = "free" ∧ nsize ≤ q.size) := by
  intro pt nsize
  induction pt with
  | nil =>
    intro _ k hk hne
    simp only [find_available_partition] at hk
    omega
  | cons p rest ih =>
    intro hsorted k hk hne
    by_cases hp : p.code = "free" ∧ nsize ≤ p.size
    · simp only [find_available_partition, if_pos hp] at hk
      refine ⟨p, by simp, hk, hp.1, hp.2, ?_⟩
      intro q hq hlt
      rcases List.mem_cons.mp hq with hq | hq
      · subst hq
        omega
      · have := (List.pairwise_cons.mp hsorted).1 q hq
        omega
    · simp only [find_available_partition, if_neg hp] at hk
      obtain ⟨q, hqmem, hqnum, hqfree, hqsz, hqmin⟩ :=
        ih (List.pairwise_cons.mp hsorted).2 k hk hne
      refine ⟨q, by simp [hqmem], hqnum, hqfree, hqsz, ?_⟩
      intro r hr hlt
      rcases List.mem_cons.mp hr with hr | hr
      · exact hr ▸ hp
      · exact hqmin r hr hlt

/-- C3: the partition chosen for an EXEC request is found by first-fit in
partition-id ascending order: whenever the table is sorted by ascending
partition id (as the table built by `initialize_system` is, and partition ids
are never changed afterwards), the scan returns the free, large-enough
partition of least id, and returns `-1` exactly when no free partition fits;
in particular, for the initial partitions of capacities `[40,25,15,10,8]` all
free and a 20 MB request, partition 0 (40 MB) is selected and partition 1
(25 MB) is not. -/
theorem c3_first_fit_ascending_id (pt : List Partition) (nsize : Nat)
    (hsorted : pt.Pairwise (fun a b => a.number < b.number)) :
    (∀ k, find_available_partition pt nsize = k → k ≠ -1 →
      ∃ p ∈ pt, (p.number : Int) = k ∧ p.code = "free" ∧ nsize ≤ p.size ∧
        ∀ q ∈ pt, q.number < p.number → ¬(q.code = "free" ∧ nsize ≤ q.size))
    ∧ (find_available_partition pt nsize = -1 ↔
        ∀ p ∈ pt, ¬(p.code = "free" ∧ nsize ≤ p.size))
    ∧ find_available_partition initial_partitions 20 = 0
    ∧ find_available_partition initial_partitions 20 ≠ 1
    ∧ (∃ p ∈ initial_partitions, p.number = 0 ∧ p.size = 40)
    ∧ (∃ p ∈ initial_partitions, p.number = 1 ∧ p.size = 25) := by
  refine ⟨find_available_partition_first pt nsize hsorted,
    find_available_partition_none_iff pt nsize, by decide, by decide, ?_, ?_⟩
  · exact ⟨⟨0, 40, "free"⟩, by decide, rfl, rfl⟩
  · exact ⟨⟨1, 25, "free"⟩, by decide, rfl, rfl⟩

/-- Witness for C3 at the concrete initial partition table. -/
theorem c3_witness :
    initial_partitions.Pairwise (fun a b => a.number < b.number)
    ∧ (find_available_partition initial_partitions 20 = -1 ↔
        ∀ p ∈ initial_partitions, ¬(p.code = "free" ∧ 20 ≤ p.size)) :=
  ⟨by decide, (c3_first_fit_ascending_id initial_partitions 20 (by decide)).2.1⟩

theorem find_available_partition_exists :
    ∀ (pt : List Partition) (nsize : Nat) (k : Int),
      find_available_partition pt nsize = k → k ≠ -1 →
      ∃ p ∈ pt, (p.number : Int) = k ∧ p.code = "free" ∧ nsize ≤ p.size := by
  intro pt nsize
  induction pt with
  | nil =>
    intro k hk hne
    simp only [find_available_partition] at hk
    omega
  | cons p rest ih =>
    intro k hk hne
    by_cases hp : p.code = "free" ∧ nsize ≤ p.size
    · simp only [find_available_partition, if_pos hp] at hk
      exact ⟨p, by simp, hk, hp.1, hp.2⟩
    · simp only [find_available_partition, if_neg hp] at hk
      obtain ⟨q, hqmem, hq⟩ := ih k hk hne
      exact ⟨q, by simp [hqmem], hq⟩

theorem mark_partition_mem_or (pt : List Partition) (k : Int) (name : String) :
    ∀ p ∈ mark_partition pt k name, p ∈ pt ∨ p.code = name := by
  induction pt with
  | nil => simp [mark_partition]
  | cons q rest ih =>
    intro p hp
    by_cases hq : (q.number : Int) = k
    · simp only [mark_partition, if_pos hq, List.mem_cons] at hp
      rcases hp with hp | hp
      · exact Or.inr (by simp [hp])
      · exact Or.inl (by simp [hp])
    · simp only [mark_partition, if_neg hq, List.mem_cons] at hp
      rcases hp with hp | hp
      · exact Or.inl (by simp [hp])
      · rcases ih p hp with h | h
        · exact Or.inl (by simp [h])
        · exact Or.inr h

theorem mark_partition_sets :
    ∀ (pt : List Partition) (k : Int) (name : String),
      (∃ p ∈ pt, (p.number : Int) = k) →
      ∃ p ∈ mark_partition pt k name, (p.number : Int) = k ∧ p.code = name := by
  intro pt k name
  induction pt with
  | nil => simp
  | cons q rest ih =>
    intro hex
    by_cases hq : (q.number : Int) = k
    · refine ⟨{ q with code := name }, ?_, hq, rfl⟩
      simp [mark_partition, if_pos hq]
    · obtain ⟨p, hpmem, hpk⟩ := hex
      rcases List.mem_cons.mp hpmem with hp | hp
      · exact absurd (hp ▸ hpk) hq
      · obtain ⟨r, hrmem, hr⟩ := ih ⟨p, hp, hpk⟩
        exact ⟨r, by simp [mark_partition, if_neg hq, hrmem], hr⟩

theorem update_pcb_mem_or (tbl : List PCB) (pid : Int) (name : String)
    (part : Int) (sz : Int) :
    ∀ r ∈ update_pcb tbl pid name part sz,
      r ∈ tbl
      ∨ ∃ q ∈ tbl, q.pid = pid ∧
          r = { q with program_name := name, partition_number := part, size := sz } := by
  induction tbl with
  | nil => simp [update_pcb]
  | cons q rest ih =>
    intro r hr
    by_cases hq : q.pid = pid
    · simp only [update_pcb, if_pos hq, List.mem_cons] at hr
      rcases hr with hr | hr
      · exact Or.inr ⟨q, by simp, hq, hr⟩
      · exact Or.inl (by simp [hr])
    · simp only [update_pcb, if_neg hq, List.mem_cons] at hr
      rcases hr with hr | hr
      · exact Or.inl (by simp [hr])
      · rcases ih r hr with h | ⟨q2, hq2, hpid, heq⟩
        · exact Or.inl (by simp [h])
        · exact Or.inr ⟨q2, by simp [hq2], hpid, heq⟩

/-- C4 counterexample: in a successful EXEC (program `"p"` of size 2 found,
partition 0 selected), the log entry produced directly after the load entry
(index 4) is the duration-1 `"marking partition as occupied"` entry (index 5),
not the PCB-update entry the claim lists next. -/
theorem c4_counterexample :
    ((handle_exec "p" 0 ["va", "vb", "vc", "vd"] [⟨"p", 2⟩] 0
        initialize_system).map (fun r => (r.1.get? 4, r.1.get? 5)))
      = some (some ⟨13, 30, "loading p from disk to partition 0"⟩,
              some ⟨43, 1, "marking partition as occupied"⟩)
    ∧ "marking partition as occupied" ≠ "updating PCB" :=
  ⟨by decide, by decide⟩

/-- C4 (amended): for every EXEC whose program is found in the catalog and for
which a partition fits, the chosen partition's occupant is set to the program
name (the handler only ever writes the program name, never `"free"`), one load
entry of duration exactly `15 * size_mb` of the catalog entry is logged and
advances the clock by that amount, and the caller's `program_name`,
`partition_id` and `size_mb` PCB fields are overwritten in place; the load
entry is followed by a duration-1 marking-partition-as-occupied entry, the
duration-3 PCB-update entry, a zero-duration scheduler marker, and the exit
sequence. -/
theorem c4_exec_load_and_update
    (t pid : Int) (vectors : List String) (v3 : String)
    (cat : List ExternalFile) (name : String) (file : ExternalFile)
    (s : SimState) (k : Int)
    (hv3 : vecAt vectors 3 = some v3)
    (hfind : cat.find? (fun f => f.program_name == name) = some file)
    (hpart : find_available_partition s.partition_table file.size = k)
    (hk : k ≠ -1) :
    handle_exec name t vectors cat pid s =
      some (boiler_entries t 3 v3
          ++ [⟨t + 13, (file.size : Int) * 15,
                "loading " ++ name ++ " from disk to partition " ++ toString k⟩,
              ⟨t + 13 + (file.size : Int) * 15, 1, "marking partition as occupied"⟩,
              ⟨t + 13 + (file.size : Int) * 15 + 1, 3, "updating PCB"⟩,
              ⟨t + 13 + (file.size : Int) * 15 + 4, 0, "scheduler called"⟩]
          ++ exit_entries (t + 13 + (file.size : Int) * 15 + 4),
        t + 13 + (file.size : Int) * 15 + 16,
        { s with partition_table := mark_partition s.partition_table k name,
                 pcb_table := update_pcb s.pcb_table pid name k (file.size : Int) })
    ∧ (∀ p ∈ mark_partition s.partition_table k name,
        p ∈ s.partition_table ∨ p.code = name)
    ∧ (∃ p ∈ mark_partition s.partition_table k name,
        (p.number : Int) = k ∧ p.code = name)
    ∧ (∀ r ∈ update_pcb s.pcb_table pid name k (file.size : Int),
        r ∈ s.pcb_table
        ∨ ∃ q ∈ s.pcb_table, q.pid = pid ∧
            r = { q with program_name := name, partition_number := k, size := (file.size : Int) }) := by
  refine ⟨?_, mark_partition_mem_or s.partition_table k name, ?_,
    update_pcb_mem_or s.pcb_table pid name k (file.size : Int)⟩
  · subst hpart
    simp only [handle_exec, intr_boilerplate_eq hv3, Option.bind_eq_bind,
      Option.some_bind, hfind, if_neg hk, exit_sequence_eq]
    rw [show t + 13 + (file.size : Int) * 15 + 1 + 3
          = t + 13 + (file.size : Int) * 15 + 4 from by omega,
        show t + 13 + (file.size : Int) * 15 + 4 + 12
          = t + 13 + (file.size : Int) * 15 + 16 from by omega]
  · obtain ⟨p, hpmem, hpk, _⟩ :=
      find_available_partition_exists s.partition_table file.size k hpart hk
    exact mark_partition_sets s.partition_table k name ⟨p, hpmem, hpk⟩

/-- Witness for C4 (amended): concrete successful EXEC. -/
theorem c4_witness :
    handle_exec "p" 0 ["va", "vb", "vc", "vd"] [⟨"p", 2⟩] 0 initialize_system =
      some (boiler_entries 0 3 "vd"
          ++ [⟨13, 30, "loading p from disk to partition 0"⟩,
              ⟨43, 1, "marking partition as occupied"⟩,
              ⟨44, 3, "updating PCB"⟩,
              ⟨47, 0, "scheduler called"⟩]
          ++ exit_entries 47, 59,
        { initialize_system with
            partition_table := mark_partition initialize_system.partition_table 0 "p",
            pcb_table := update_pcb initialize_system.pcb_table 0 "p" 0 2 }) := by
  have h := (c4_exec_load_and_update 0 0 ["va", "vb", "vc", "vd"] "vd"
    [⟨"p", 2⟩] "p" ⟨"p", 2⟩ initialize_system 0 (by decide) (by decide)
    (by decide) (by decide)).1
  exact h.trans (by decide)

/-- C5: for every FORK whose calling process is found in the process table,
exactly one new record is appended: it equals the parent's record at clone
time in every field except `pid` (the fresh `next_pid`, strictly greater than
every pid already in the table, hence unique), `ppid` (set to the caller) and
`priority` (set to 1, the documented child-runs-first level); the child's pid
is enqueued at the back of the ready queue, the partition table is unchanged,
and the parent's record (with its partition assignment) is untouched. -/
theorem c5_fork_clone
    (t pid : Int) (vectors : List String) (v2 : String) (s : SimState)
    (parent : PCB)
    (hv2 : vecAt vectors 2 = some v2)
    (hfind : s.pcb_table.find? (fun p => p.pid == pid) = some parent)
    (hinv : PidInv s) :
    ∃ child log t2 s2,
      handle_fork t vectors pid s = some (log, t2, s2)
      ∧ child = { parent with pid := s.next_pid, ppid := pid, priority := 1 }
      ∧ s2.pcb_table = s.pcb_table ++ [child]
      ∧ child.program_name = parent.program_name
      ∧ child.partition_number = parent.partition_number
      ∧ child.size = parent.size
      ∧ child.state = parent.state
      ∧ child.ppid = pid
      ∧ child.priority = 1
      ∧ (∀ p ∈ s.pcb_table, p.pid < child.pid)
      ∧ (∀ p ∈ s.pcb_table, p.pid ≠ child.pid)
      ∧ s2.ready_queue = s.ready_queue ++ [child.pid]
      ∧ s2.partition_table = s.partition_table
      ∧ s2.pcb_table.find? (fun p => p.pid == pid) = some parent := by
  refine ⟨{ parent with pid := s.next_pid, ppid := pid, priority := 1 },
    boiler_entries t 2 v2
      ++ [⟨t + 13, 1, "cloning the PCB"⟩, ⟨t + 14, 0, "scheduler called"⟩]
      ++ exit_entries (t + 14),
    t + 26,
    { s with
        pcb_table := s.pcb_table
          ++ [{ parent with pid := s.next_pid, ppid := pid, priority := 1 }]
        parent_child_map := s.parent_child_map ++ [(pid, s.next_pid)]
        ready_queue := s.ready_queue ++ [s.next_pid]
        next_pid := s.next_pid + 1 },
    ?_, rfl, rfl, rfl, rfl, rfl, rfl, rfl, rfl, ?_, ?_, rfl, rfl, ?_⟩
  · simp only [handle_fork, intr_boilerplate_eq hv2, Option.bind_eq_bind,
      Option.some_bind, hfind, exit_sequence_eq]
    rw [show t + 13 + 1 = t + 14 from by omega,
        show t + 14 + 12 = t + 26 from by omega]
  · intro p hp
    exact hinv p hp
  · intro p hp
    exact Int.ne_of_lt (hinv p hp)
  · rw [List.find?_append, hfind]
    rfl

/-- Witness for C5: FORK from the freshly initialized system (caller pid 0,
the init process). -/
theorem c5_witness :
    ∃ child log t2 s2,
      handle_fork 0 ["va", "vb", "vc", "vd"] 0 initialize_system =
        some (log, t2, s2)
      ∧ child = { init_process with pid := 1, ppid := 0, priority := 1 }
      ∧ s2.pcb_table = initialize_system.pcb_table ++ [child]
      ∧ child.program_name = init_process.program_name
      ∧ child.partition_number = init_process.partition_number
      ∧ child.size = init_process.size
      ∧ child.state = init_process.state
      ∧ child.ppid = 0
      ∧ child.priority = 1
      ∧ (∀ p ∈ initialize_system.pcb_table, p.pid < child.pid)
      ∧ (∀ p ∈ initialize_system.pcb_table, p.pid ≠ child.pid)
      ∧ s2.ready_queue = initialize_system.ready_queue ++ [child.pid]
      ∧ s2.partition_table = initialize_system.partition_table
      ∧ s2.pcb_table.find? (fun p => p.pid == 0) = some init_process :=
  c5_fork_clone 0 0 ["va", "vb", "vc", "vd"] "vc" initialize_system
    init_process (by decide) (by decide) (by decide)

/-- C6: each recoverable simulation error — EXEC target not in the catalog,
no free partition large enough, FORK caller not in the process table — logs
exactly one error entry of duration 1, still runs the full exit sequence,
leaves the whole simulator state (partition table and process table included)
unchanged, and the event loop then continues with the remaining events. -/
theorem c6_recoverable_errors
    (t pid : Int) (vectors : List String) (v2 v3 : String)
    (cat : List ExternalFile) (name : String) (s : SimState)
    (hv2 : vecAt vectors 2 = some v2) (hv3 : vecAt vectors 3 = some v3) :
    (cat.find? (fun f => f.program_name == name) = none →
      handle_exec name t vectors cat pid s =
        some (boiler_entries t 3 v3 ++ [⟨t + 13, 1, "ERROR: Program not found"⟩]
            ++ exit_entries (t + 14), t + 26, s))
    ∧ (∀ file, cat.find? (fun f => f.program_name == name) = some file →
        find_available_partition s.partition_table file.size = -1 →
        handle_exec name t vectors cat pid s =
          some (boiler_entries t 3 v3 ++ [⟨t + 13, 1, "ERROR: No partition"⟩]
              ++ exit_entries (t + 14), t + 26, s))
    ∧ (s.pcb_table.find? (fun p => p.pid == pid) = none →
        handle_fork t vectors pid s =
          some (boiler_entries t 2 v2 ++ [⟨t + 13, 1, "ERROR: Parent not found"⟩]
              ++ exit_entries (t + 14), t + 26, s))
    ∧ (∀ (delays : List Int) (efs : List ExternalFile) (st : InterpState)
         (line : String) (rest : List String) (log : List LogEntry)
         (st2 : InterpState),
        process_line vectors delays efs st line = some (log, st2) →
        run_trace vectors delays efs (line :: rest) st =
          (run_trace vectors delays efs rest st2).map
            (fun r => (log ++ r.1, r.2))) := by
  refine ⟨?_, ?_, ?_, ?_⟩
  · intro hfind
    simp only [handle_exec, intr_boilerplate_eq hv3, Option.bind_eq_bind,
      Option.some_bind, hfind, exit_sequence_eq]
    rw [show t + 13 + 1 = t + 14 from by omega,
        show t + 14 + 12 = t + 26 from by omega]
  · intro file hfind hpart
    simp only [handle_exec, intr_boilerplate_eq hv3, Option.bind_eq_bind,
      Option.some_bind, hfind, hpart, if_true, exit_sequence_eq]
    rw [show t + 13 + 1 = t + 14 from by omega,
        show t + 14 + 12 = t + 26 from by omega]
  · intro hfind
    simp only [handle_fork, intr_boilerplate_eq hv2, Option.bind_eq_bind,
      Option.some_bind, hfind, exit_sequence_eq]
    rw [show t + 13 + 1 = t + 14 from by omega,
        show t + 14 + 12 = t + 26 from by omega]
  · intro delays efs st line rest log st2 hpl
    simp only [run_trace, hpl, Option.bind_eq_bind, Option.some_bind]
    cases run_trace vectors delays efs rest st2 with
    | none => rfl
    | some r => rfl

/-- Witness for C6: EXEC of a program absent from an empty catalog, from the
initial state. -/
theorem c6_witness :
    handle_exec "ghost" 0 ["va", "vb", "vc", "vd"] [] 0 initialize_system =
      some (boiler_entries 0 3 "vd" ++ [⟨13, 1, "ERROR: Program not found"⟩]
          ++ exit_entries 14, 26, initialize_system) := by
  have h := (c6_recoverable_errors 0 0 ["va", "vb", "vc", "vd"] "vc" "vd"
    [] "ghost" initialize_system (by decide) (by decide)).1 (by decide)
  exact h.trans (by decide)

theorem stampsFrom_nil (t : Int) : StampsFrom t [] t := by
  refine ⟨le_refl t, by simp, by simp, by simp, fun _ => rfl⟩

theorem stampsFrom_single (t d : Int) (desc : String) (hd : 0 ≤ d) :
    StampsFrom t [⟨t, d, desc⟩] (t + d) := by
  refine ⟨by omega, by simp, ?_, ?_, by simp⟩
  · intro e he
    simp only [List.mem_singleton] at he
    subst he
    dsimp only
    omega
  · intro e he
    simp only [List.head?_cons, Option.some.injEq] at he
    subst he
    rfl

theorem stampsFrom_append {t t1 t2 : Int} {l1 l2 : List LogEntry}
    (h1 : StampsFrom t l1 t1) (h2 : StampsFrom t1 l2 t2) :
    StampsFrom t (l1 ++ l2) t2 := by
  obtain ⟨hle1, hpw1, hbd1, hhd1, hni1⟩ := h1
  obtain ⟨hle2, hpw2, hbd2, hhd2, hni2⟩ := h2
  refine ⟨le_trans hle1 hle2, ?_, ?_, ?_, ?_⟩
  · rw [List.pairwise_append]
    refine ⟨hpw1, hpw2, ?_⟩
    intro a ha b hb
    exact le_trans (hbd1 a ha).2 (hbd2 b hb).1
  · intro e he
    rcases List.mem_append.mp he with he | he
    · exact ⟨(hbd1 e he).1, le_trans (hbd1 e he).2 hle2⟩
    · exact ⟨le_trans hle1 (hbd2 e he).1, (hbd2 e he).2⟩
  · intro e he
    cases l1 with
    | nil =>
      rw [List.nil_append] at he
      rw [hhd2 e he, hni1 rfl]
    | cons a l =>
      simp only [List.cons_append, List.head?_cons, Option.some.injEq] at he
      subst he
      exact hhd1 a (by simp)
  · intro happ
    rcases List.append_eq_nil.mp happ with ⟨rfl, rfl⟩
    rw [hni2 rfl, hni1 rfl]

theorem stampsFrom_boiler (t n : Int) (v : String) :
    StampsFrom t (boiler_entries t n v) (t + 13) := by
  refine ⟨by omega, ?_, ?_, ?_, by simp [boiler_entries]⟩
  · simp only [boiler_entries, List.pairwise_cons, List.mem_cons,
      List.mem_singleton, List.not_mem_nil, or_false, forall_eq_or_imp,
      forall_eq, List.Pairwise.nil, false_implies, implies_true, and_true]
    omega
  · intro e he
    simp only [boiler_entries, List.mem_cons, List.mem_singleton,
      List.not_mem_nil, or_false] at he
    rcases he with he | he | he | he <;> subst he <;> dsimp only <;> omega
  · intro e he
    simp only [boiler_entries, List.head?_cons, Option.some.injEq] at he
    subst he
    rfl

theorem stampsFrom_exit (t : Int) :
    StampsFrom t (exit_entries t) (t + 12) := by
  refine ⟨by omega, ?_, ?_, ?_, by simp [exit_entries]⟩
  · simp only [exit_entries, List.pairwise_cons, List.mem_cons,
      List.mem_singleton, List.not_mem_nil, or_false, forall_eq_or_imp,
      forall_eq, List.Pairwise.nil, false_implies, implies_true, and_true]
    omega
  · intro e he
    simp only [exit_entries, List.mem_cons, List.mem_singleton,
      List.not_mem_nil, or_false] at he
    rcases he with he | he | he <;> subst he <;> dsimp only <;> omega
  · intro e he
    simp only [exit_entries, List.head?_cons, Option.some.injEq] at he
    subst he
    rfl

theorem intr_boilerplate_stamps {t n : Int} {vectors : List String}
    {l : List LogEntry} {t2 : Int}
    (h : intr_boilerplate t n 10 vectors = some (l, t2)) :
    StampsFrom t l t2 ∧ t2 = t + 13 := by
  cases hv : vecAt vectors n with
  | none => simp [intr_boilerplate, hv] at h
  | some v =>
    rw [intr_boilerplate_eq hv] at h
    simp only [Option.some.injEq, Prod.mk.injEq] at h
    obtain ⟨rfl, rfl⟩ := h
    exact ⟨stampsFrom_boiler t n v, rfl⟩

theorem handle_interrupt_stamps {n t : Int} {vectors : List String}
    {delays : List Int} {ty : String} {l : List LogEntry} {t2 : Int}
    (hdel : ∀ d ∈ delays, 0 ≤ d)
    (h : handle_interrupt n t vectors delays ty = some (l, t2)) :
    StampsFrom t l t2 := by
  unfold handle_interrupt at h
  cases hb : intr_boilerplate t n 10 vectors with
  | none => rw [hb] at h; simp at h
  | some r =>
    obtain ⟨bl, t1⟩ := r
    rw [hb] at h
    cases hd2 : vecAt delays n with
    | none => simp [execute_isr, hd2] at h
    | some dl =>
      simp only [execute_isr, hd2, Option.bind_eq_bind, Option.some_bind,
        exit_sequence_eq, Option.some.injEq, Prod.mk.injEq] at h
      obtain ⟨rfl, rfl⟩ := h
      have hmid : StampsFrom t (bl ++ [⟨t1, dl, ty ++ ": run the ISR"⟩]) (t1 + dl) :=
        stampsFrom_append (intr_boilerplate_stamps hb).1
          (stampsFrom_single t1 dl (ty ++ ": run the ISR")
            (hdel dl (vecAt_mem hd2)))
      exact stampsFrom_append hmid (stampsFrom_exit (t1 + dl))

theorem handle_fork_stamps {t pid : Int} {vectors : List String}
    {s : SimState} {l : List LogEntry} {t2 : Int} {s2 : SimState}
    (h : handle_fork t vectors pid s = some (l, t2, s2)) :
    StampsFrom t l t2 := by
  unfold handle_fork at h
  cases hb : intr_boilerplate t 2 10 vectors with
  | none => rw [hb] at h; simp at h
  | some r =>
    obtain ⟨bl, t1⟩ := r
    rw [hb] at h
    cases hf : s.pcb_table.find? (fun p => p.pid == pid) with
    | none =>
      simp only [hf, Option.bind_eq_bind, Option.some_bind, exit_sequence_eq,
        Option.some.injEq, Prod.mk.injEq] at h
      obtain ⟨rfl, rfl, rfl⟩ := h
      have hmid : StampsFrom t (bl ++ [⟨t1, 1, "ERROR: Parent not found"⟩]) (t1 + 1) :=
        stampsFrom_append (intr_boilerplate_stamps hb).1
          (stampsFrom_single t1 1 "ERROR: Parent not found" (by omega))
      exact stampsFrom_append hmid (stampsFrom_exit (t1 + 1))
    | some parent =>
      simp only [hf, Option.bind_eq_bind, Option.some_bind, exit_sequence_eq,
        Option.some.injEq, Prod.mk.injEq] at h
      obtain ⟨rfl, rfl, rfl⟩ := h
      have hsched : StampsFrom (t1 + 1) [⟨t1 + 1, 0, "scheduler called"⟩] (t1 + 1) := by
        have hx := stampsFrom_single (t1 + 1) 0 "scheduler called" (le_refl 0)
        rwa [add_zero] at hx
      have hmid : StampsFrom t
          (bl ++ [⟨t1, 1, "cloning the PCB"⟩, ⟨t1 + 1, 0, "scheduler called"⟩])
          (t1 + 1) := by
        have h2 : StampsFrom t1
            [⟨t1, 1, "cloning the PCB"⟩, ⟨t1 + 1, 0, "scheduler called"⟩]
            (t1 + 1) := by
          have := stampsFrom_append
            (stampsFrom_single t1 1 "cloning the PCB" (by omega)) hsched
          simpa using this
        exact stampsFrom_append (intr_boilerplate_stamps hb).1 h2
      exact stampsFrom_append hmid (stampsFrom_exit (t1 + 1))

theorem handle_exec_stamps {t pid : Int} {vectors : List String}
    {efs : List ExternalFile} {name : String}
    {s : SimState} {l : List LogEntry} {t2 : Int} {s2 : SimState}
    (h : handle_exec name t vectors efs pid s = some (l, t2, s2)) :
    StampsFrom t l t2 := by
  unfold handle_exec at h
  cases hb : intr_boilerplate t 3 10 vectors with
  | none => rw [hb] at h; simp at h
  | some r =>
    obtain ⟨bl, t1⟩ := r
    rw [hb] at h
    cases hf : efs.find? (fun f => f.program_name == name) with
    | none =>
      simp only [hf, Option.bind_eq_bind, Option.some_bind, exit_sequence_eq,
        Option.some.injEq, Prod.mk.injEq] at h
      obtain ⟨rfl, rfl, rfl⟩ := h
      have hmid : StampsFrom t (bl ++ [⟨t1, 1, "ERROR: Program not found"⟩]) (t1 + 1) :=
        stampsFrom_append (intr_boilerplate_stamps hb).1
          (stampsFrom_single t1 1 "ERROR: Program not found" (by omega))
      exact stampsFrom_append hmid (stampsFrom_exit (t1 + 1))
    | some file =>
      by_cases hpart : find_available_partition s.partition_table file.size = -1
      · simp only [hf, hpart, if_true, Option.bind_eq_bind, Option.some_bind,
          exit_sequence_eq, Option.some.injEq, Prod.mk.injEq] at h
        obtain ⟨rfl, rfl, rfl⟩ := h
        have hmid : StampsFrom t (bl ++ [⟨t1, 1, "ERROR: No partition"⟩]) (t1 + 1) :=
          stampsFrom_append (intr_boilerplate_stamps hb).1
            (stampsFrom_single t1 1 "ERROR: No partition" (by omega))
        exact stampsFrom_append hmid (stampsFrom_exit (t1 + 1))
      · simp only [hf, hpart, if_false, Option.bind_eq_bind, Option.some_bind,
          exit_sequence_eq, Option.some.injEq, Prod.mk.injEq] at h
        obtain ⟨rfl, rfl, rfl⟩ := h
        have hL : (0 : Int) ≤ (file.size : Int) * 15 :=
          mul_nonneg (Int.natCast_nonneg file.size) (by norm_num)
        have hload := stampsFrom_single t1 ((file.size : Int) * 15)
          ("loading " ++ name ++ " from disk to partition "
            ++ toString (find_available_partition s.partition_table file.size)) hL
        have hmark := stampsFrom_single (t1 + (file.size : Int) * 15) 1
          "marking partition as occupied" (by omega)
        have hupd := stampsFrom_single (t1 + (file.size : Int) * 15 + 1) 3
          "updating PCB" (by omega)
        have hsched : StampsFrom (t1 + (file.size : Int) * 15 + 1 + 3)
            [⟨t1 + (file.size : Int) * 15 + 1 + 3, 0, "scheduler called"⟩]
            (t1 + (file.size : Int) * 15 + 1 + 3) := by
          have hx := stampsFrom_single (t1 + (file.size : Int) * 15 + 1 + 3) 0
            "scheduler called" (le_refl 0)
          rwa [add_zero] at hx
        have hmid : StampsFrom t1
            ([⟨t1, (file.size : Int) * 15,
                "loading " ++ name ++ " from disk to partition "
                  ++ toString (find_available_partition s.partition_table file.size)⟩,
              ⟨t1 + (file.size : Int) * 15, 1, "marking partition as occupied"⟩,
              ⟨t1 + (file.size : Int) * 15 + 1, 3, "updating PCB"⟩,
              ⟨t1 + (file.size : Int) * 15 + 1 + 3, 0, "scheduler called"⟩])
            (t1 + (file.size : Int) * 15 + 1 + 3) := by
          have hc := stampsFrom_append hload
            (stampsFrom_append hmark (stampsFrom_append hupd hsched))
          simpa using hc
        exact stampsFrom_append
          (stampsFrom_append (intr_boilerplate_stamps hb).1 hmid)
          (stampsFrom_exit (t1 + (file.size : Int) * 15 + 1 + 3))

theorem process_line_result
    (vectors : List String) (delays : List Int) (efs : List ExternalFile)
    (st : InterpState) (line : String) (log : List LogEntry) (st2 : InterpState)
    (h : process_line vectors delays efs st line = some (log, st2)) :
    ((parse_trace line).1 = "CPU"
      ∧ log = [⟨st.current_time, (parse_trace line).2, "CPU execution"⟩]
      ∧ st2 = { st with current_time := st.current_time + (parse_trace line).2 })
    ∨ (∃ t2 s2, handle_fork st.current_time vectors st.current_pid st.sys
          = some (log, t2, s2)
        ∧ st2 = { st with current_time := t2, sys := s2 })
    ∨ (∃ nm t2 s2,
        handle_exec nm st.current_time vectors efs st.current_pid st.sys
          = some (log, t2, s2)
        ∧ st2 = { st with current_time := t2, sys := s2 })
    ∨ (∃ t2, handle_interrupt (parse_trace line).2 st.current_time vectors
          delays (parse_trace line).1 = some (log, t2)
        ∧ st2 = { st with current_time := t2 })
    ∨ (log = [] ∧ st2.current_time = st.current_time ∧ st2.sys = st.sys
        ∧ st2.current_pid = st.current_pid) := by
  simp only [process_line] at h
  by_cases h1 : (parse_trace line).1 = "CPU"
  · rw [if_pos h1] at h
    simp only [simulate_cpu, Option.some.injEq, Prod.mk.injEq] at h
    obtain ⟨rfl, rfl⟩ := h
    exact Or.inl ⟨h1, rfl, rfl⟩
  · rw [if_neg h1] at h
    by_cases h2 : (parse_trace line).1 = "FORK"
    · rw [if_pos h2] at h
      cases hf : handle_fork st.current_time vectors st.current_pid st.sys with
      | none => rw [hf] at h; exact absurd h (by simp)
      | some r =>
        obtain ⟨l0, t0, s0⟩ := r
        rw [hf] at h
        simp only [Option.some.injEq, Prod.mk.injEq] at h
        obtain ⟨rfl, rfl⟩ := h
        exact Or.inr (Or.inl ⟨t0, s0, rfl, rfl⟩)
    · rw [if_neg h2] at h
      by_cases h3 : (parse_trace line).1 = "IF_CHILD"
      · rw [if_pos h3] at h
        simp only [Option.some.injEq, Prod.mk.injEq] at h
        obtain ⟨rfl, rfl⟩ := h
        exact Or.inr (Or.inr (Or.inr (Or.inr ⟨rfl, rfl, rfl, rfl⟩)))
      · rw [if_neg h3] at h
        by_cases h4 : (parse_trace line).1 = "IF_PARENT"
        · rw [if_pos h4] at h
          simp only [Option.some.injEq, Prod.mk.injEq] at h
          obtain ⟨rfl, rfl⟩ := h
          exact Or.inr (Or.inr (Or.inr (Or.inr ⟨rfl, rfl, rfl, rfl⟩)))
        · rw [if_neg h4] at h
          by_cases h5 : (parse_trace line).1 = "ENDIF"
          · rw [if_pos h5] at h
            simp only [Option.some.injEq, Prod.mk.injEq] at h
            obtain ⟨rfl, rfl⟩ := h
            exact Or.inr (Or.inr (Or.inr (Or.inr ⟨rfl, rfl, rfl, rfl⟩)))
          · rw [if_neg h5] at h
            by_cases h6 : (parse_trace line).1.take 4 = "EXEC"
            · rw [if_pos h6] at h
              cases hs : cppSubstrFrom (parse_trace line).1 5 with
              | none => rw [hs] at h; exact absurd h (by simp)
              | some nm =>
                rw [hs] at h
                dsimp only at h
                cases he : handle_exec nm st.current_time vectors efs
                    st.current_pid st.sys with
                | none => rw [he] at h; exact absurd h (by simp)
                | some r =>
                  obtain ⟨l0, t0, s0⟩ := r
                  rw [he] at h
                  simp only [Option.some.injEq, Prod.mk.injEq] at h
                  obtain ⟨rfl, rfl⟩ := h
                  exact Or.inr (Or.inr (Or.inl ⟨nm, t0, s0, he, rfl⟩))
            · rw [if_neg h6] at h
              by_cases h7 : (parse_trace line).1 = "SYSCALL"
                ∨ (parse_trace line).1 = "END_IO"
              · rw [if_pos h7] at h
                cases hi : handle_interrupt (parse_trace line).2 st.current_time
                    vectors delays (parse_trace line).1 with
                | none => rw [hi] at h; exact absurd h (by simp)
                | some r =>
                  obtain ⟨l0, t0⟩ := r
                  rw [hi] at h
                  simp only [Option.some.injEq, Prod.mk.injEq] at h
                  obtain ⟨rfl, rfl⟩ := h
                  exact Or.inr (Or.inr (Or.inr (Or.inl ⟨t0, rfl, rfl⟩)))
              · rw [if_neg h7] at h
                simp only [Option.some.injEq, Prod.mk.injEq] at h
                obtain ⟨rfl, rfl⟩ := h
                exact Or.inr (Or.inr (Or.inr (Or.inr ⟨rfl, rfl, rfl, rfl⟩)))

theorem process_line_stamps
    (vectors : List String) (delays : List Int) (efs : List ExternalFile)
    (st : InterpState) (line : String) (log : List LogEntry) (st2 : InterpState)
    (hdel : ∀ d ∈ delays, 0 ≤ d)
    (hcpu : (parse_trace line).1 = "CPU" → 0 ≤ (parse_trace line).2)
    (h : process_line vectors delays efs st line = some (log, st2)) :
    StampsFrom st.current_time log st2.current_time := by
  rcases process_line_result vectors delays efs st line log st2 h with
    ⟨hact, rfl, rfl⟩ | ⟨t2, s2, hf, rfl⟩ | ⟨nm, t2, s2, he, rfl⟩
    | ⟨t2, hi, rfl⟩ | ⟨rfl, ht, _, _⟩
  · have hx := stampsFrom_single st.current_time (parse_trace line).2
      "CPU execution" (hcpu hact)
    simpa using hx
  · simpa using handle_fork_stamps hf
  · simpa using handle_exec_stamps he
  · simpa using handle_interrupt_stamps hdel hi
  · rw [ht]
    exact stampsFrom_nil st.current_time

theorem run_trace_stamps (vectors : List String) (delays : List Int)
    (efs : List ExternalFile) :
    ∀ (lines : List String) (st : InterpState) (log : List LogEntry)
      (st2 : InterpState),
      (∀ d ∈ delays, 0 ≤ d) →
      (∀ line ∈ lines, (parse_trace line).1 = "CPU" → 0 ≤ (parse_trace line).2) →
      run_trace vectors delays efs lines st = some (log, st2) →
      StampsFrom st.current_time log st2.current_time := by
  intro lines
  induction lines with
  | nil =>
    intro st log st2 _ _ h
    simp only [run_trace, Option.some.injEq, Prod.mk.injEq] at h
    obtain ⟨rfl, rfl⟩ := h
    exact stampsFrom_nil st.current_time
  | cons line rest ih =>
    intro st log st2 hdel hcpu h
    simp only [run_trace, Option.bind_eq_bind] at h
    cases hp : process_line vectors delays efs st line with
    | none => rw [hp] at h; exact absurd h (by simp)
    | some r =>
      obtain ⟨l1, st1⟩ := r
      rw [hp] at h
      simp only [Option.some_bind] at h
      cases hr : run_trace vectors delays efs rest st1 with
      | none => rw [hr] at h; exact absurd h (by simp)
      | some r2 =>
        obtain ⟨l2, st3⟩ := r2
        rw [hr] at h
        simp only [Option.some_bind, Option.some.injEq, Prod.mk.injEq] at h
        obtain ⟨rfl, rfl⟩ := h
        exact stampsFrom_append
          (process_line_stamps vectors delays efs st line l1 st1 hdel
            (hcpu line (by simp)) hp)
          (ih st1 l2 st3 hdel (fun l hl => hcpu l (by simp [hl])) hr)

/-- C7 counterexample: the trace line `CPU,-5` parses to a CPU event of
duration `-5` (negative values pass straight through `parse_trace`), so the
run `["CPU,-5", "CPU,3"]` produces the timestamp sequence `[0, -5]`, which is
not non-decreasing, and leaves the clock at `-2`: the clock moved backward. -/
theorem c7_counterexample :
    (simulate ["CPU,-5", "CPU,3"] [] [] []).map (fun r => r.1.map LogEntry.t)
      = some [0, -5]
    ∧ ¬ List.Pairwise (fun a b : Int => a ≤ b) [0, -5]
    ∧ (simulate ["CPU,-5", "CPU,3"] [] [] []).map (fun r => r.2.current_time)
      = some (-2) :=
  ⟨by decide, by decide, by decide⟩

/-- C7 (amended): for every run in which all parsed CPU durations and all
device delays are non-negative, the sequence of timestamps in the output log
is non-decreasing, its first timestamp is 0, every timestamp lies between 0
and the final clock value, and the clock never moves backward (it ends at or
above 0 and above every logged timestamp). -/
theorem c7_clock_monotonic
    (lines vectors : List String) (delays : List Int) (efs : List ExternalFile)
    (log : List LogEntry) (stf : InterpState)
    (hdel : ∀ d ∈ delays, 0 ≤ d)
    (hcpu : ∀ line ∈ lines, (parse_trace line).1 = "CPU" →
      0 ≤ (parse_trace line).2)
    (h : simulate lines vectors delays efs = some (log, stf)) :
    log.Pairwise (fun a b => a.t ≤ b.t)
    ∧ (∀ e, log.head? = some e → e.t = 0)
    ∧ (∀ e ∈ log, 0 ≤ e.t ∧ e.t ≤ stf.current_time)
    ∧ 0 ≤ stf.current_time := by
  have hs := run_trace_stamps vectors delays efs lines initial_interp log stf
    hdel hcpu h
  rw [show initial_interp.current_time = 0 from rfl] at hs
  obtain ⟨hle, hpw, hbd, hhd, _⟩ := hs
  exact ⟨hpw, hhd, hbd, hle⟩

/-- Witness for C7 (amended), on the golden trace. -/
theorem c7_witness :
    List.Pairwise (fun a b : LogEntry => a.t ≤ b.t)
      [⟨0, 50, "CPU execution"⟩,
       ⟨50, 1, "switch to kernel mode"⟩,
       ⟨51, 10, "context saved"⟩,
       ⟨61, 1, "find vector 0 in memory position 0x0000"⟩,
       ⟨62, 1, "load address v0 into the PC"⟩,
       ⟨63, 20, "SYSCALL: run the ISR"⟩,
       ⟨83, 1, "IRET"⟩,
       ⟨84, 10, "context restored"⟩,
       ⟨94, 1, "switch to user mode"⟩]
    ∧ 0 ≤ ({ initial_interp with current_time := 95 } : InterpState).current_time := by
  have h := c7_clock_monotonic ["CPU,50", "SYSCALL,0"] ["v0"] [20] []
    [⟨0, 50, "CPU execution"⟩,
     ⟨50, 1, "switch to kernel mode"⟩,
     ⟨51, 10, "context saved"⟩,
     ⟨61, 1, "find vector 0 in memory position 0x0000"⟩,
     ⟨62, 1, "load address v0 into the PC"⟩,
     ⟨63, 20, "SYSCALL: run the ISR"⟩,
     ⟨83, 1, "IRET"⟩,
     ⟨84, 10, "context restored"⟩,
     ⟨94, 1, "switch to user mode"⟩]
    { initial_interp with current_time := 95 }
    (by decide) (by decide) (by decide)
  exact ⟨h.1, h.2.2.2⟩

theorem update_pcb_pid_source (tbl : List PCB) (pid : Int) (name : String)
    (part : Int) (sz : Int) :
    ∀ r ∈ update_pcb tbl pid name part sz, ∃ q ∈ tbl, r.pid = q.pid := by
  intro r hr
  rcases update_pcb_mem_or tbl pid name part sz r hr with h | ⟨q, hq, _, rfl⟩
  · exact ⟨r, h, rfl⟩
  · exact ⟨q, hq, rfl⟩

theorem handle_fork_pid_inv {t pid : Int} {vectors : List String}
    {s : SimState} {l : List LogEntry} {t2 : Int} {s2 : SimState}
    (h : handle_fork t vectors pid s = some (l, t2, s2))
    (hinv : PidInv s) : PidInv s2 := by
  unfold handle_fork at h
  cases hb : intr_boilerplate t 2 10 vectors with
  | none => rw [hb] at h; simp at h
  | some r =>
    obtain ⟨bl, t1⟩ := r
    rw [hb] at h
    cases hf : s.pcb_table.find? (fun p => p.pid == pid) with
    | none =>
      simp only [hf, Option.bind_eq_bind, Option.some_bind, Option.some.injEq,
        Prod.mk.injEq] at h
      obtain ⟨rfl, rfl, rfl⟩ := h
      exact hinv
    | some parent =>
      simp only [hf, Option.bind_eq_bind, Option.some_bind, Option.some.injEq,
        Prod.mk.injEq] at h
      obtain ⟨rfl, rfl, rfl⟩ := h
      intro p hp
      simp only [List.mem_append, List.mem_singleton] at hp
      rcases hp with hp | rfl
      · have := hinv p hp
        simp only []
        omega
      · simp only []
        omega

theorem handle_exec_pid_inv {t pid : Int} {vectors : List String}
    {efs : List ExternalFile} {name : String}
    {s : SimState} {l : List LogEntry} {t2 : Int} {s2 : SimState}
    (h : handle_exec name t vectors efs pid s = some (l, t2, s2))
    (hinv : PidInv s) : PidInv s2 := by
  unfold handle_exec at h
  cases hb : intr_boilerplate t 3 10 vectors with
  | none => rw [hb] at h; simp at h
  | some r =>
    obtain ⟨bl, t1⟩ := r
    rw [hb] at h
    cases hf : efs.find? (fun f => f.program_name == name) with
    | none =>
      simp only [hf, Option.bind_eq_bind, Option.some_bind, Option.some.injEq,
        Prod.mk.injEq] at h
      obtain ⟨rfl, rfl, rfl⟩ := h
      exact hinv
    | some file =>
      by_cases hpart : find_available_partition s.partition_table file.size = -1
      · simp only [hf, hpart, if_true, Option.bind_eq_bind, Option.some_bind,
          Option.some.injEq, Prod.mk.injEq] at h
        obtain ⟨rfl, rfl, rfl⟩ := h
        exact hinv
      · simp only [hf, hpart, if_false, Option.bind_eq_bind, Option.some_bind,
          Option.some.injEq, Prod.mk.injEq] at h
        obtain ⟨rfl, rfl, rfl⟩ := h
        intro p hp
        obtain ⟨q, hq, hpq⟩ := update_pcb_pid_source s.pcb_table pid name
          (find_available_partition s.partition_table file.size)
          (file.size : Int) p hp
        have := hinv q hq
        simp only []
        omega

theorem pid_inv_initial : PidInv initialize_system := by decide

theorem pid_inv_process_line
    (vectors : List String) (delays : List Int) (efs : List ExternalFile)
    (st : InterpState) (line : String) (log : List LogEntry) (st2 : InterpState)
    (h : process_line vectors delays efs st line = some (log, st2))
    (hinv : PidInv st.sys) : PidInv st2.sys := by
  rcases process_line_result vectors delays efs st line log st2 h with
    ⟨_, _, rfl⟩ | ⟨t2, s2, hf, rfl⟩ | ⟨nm, t2, s2, he, rfl⟩
    | ⟨t2, _, rfl⟩ | ⟨_, _, hsys, _⟩
  · exact hinv
  · exact handle_fork_pid_inv hf hinv
  · exact handle_exec_pid_inv he hinv
  · exact hinv
  · rw [hsys]
    exact hinv

theorem pid_inv_run_trace (vectors : List String) (delays : List Int)
    (efs : List ExternalFile) :
    ∀ (lines : List String) (st : InterpState) (log : List LogEntry)
      (st2 : InterpState),
      run_trace vectors delays efs lines st = some (log, st2) →
      PidInv st.sys → PidInv st2.sys := by
  intro lines
  induction lines with
  | nil =>
    intro st log st2 h hinv
    simp only [run_trace, Option.some.injEq, Prod.mk.injEq] at h
    obtain ⟨rfl, rfl⟩ := h
    exact hinv
  | cons line rest ih =>
    intro st log st2 h hinv
    simp only [run_trace, Option.bind_eq_bind] at h
    cases hp : process_line vectors delays efs st line with
    | none => rw [hp] at h; exact absurd h (by simp)
    | some r =>
      obtain ⟨l1, st1⟩ := r
      rw [hp] at h
      simp only [Option.some_bind] at h
      cases hr : run_trace vectors delays efs rest st1 with
      | none => rw [hr] at h; exact absurd h (by simp)
      | some r2 =>
        obtain ⟨l2, st3⟩ := r2
        rw [hr] at h
        simp only [Option.some_bind, Option.some.injEq, Prod.mk.injEq] at h
        obtain ⟨rfl, rfl⟩ := h
        exact ih st1 l2 st3 hr
          (pid_inv_process_line vectors delays efs st line l1 st1 hp hinv)

/-- Witness for C2: the golden-trace `SYSCALL,0` instance (vector table
`["v0"]`, delay table `[20]`), a FORK with an empty delay table, and an EXEC,
each from the conjunct carrying only its own in-range hypothesis. -/
theorem c2_witness :
    handle_interrupt 0 0 ["v0"] [20] "SYSCALL" =
      some (boiler_entries 0 0 "v0" ++ [⟨13, 20, "SYSCALL: run the ISR"⟩]
          ++ exit_entries 33, 45)
    ∧ (∃ mid t2 s2,
        handle_fork 0 ["va", "vb", "vc", "vd"] 0 initialize_system =
          some (boiler_entries 0 2 "vc" ++ mid ++ exit_entries t2, t2 + 12, s2))
    ∧ (∃ mid t2 s2,
        handle_exec "p" 0 ["va", "vb", "vc", "vd"] [] 0 initialize_system =
          some (boiler_entries 0 3 "vd" ++ mid ++ exit_entries t2, t2 + 12, s2)) :=
  ⟨(c2_entry_and_exit_protocol 0 ["v0"] [20] 0 "SYSCALL").1
      "v0" 20 (by decide) (by decide),
   (c2_entry_and_exit_protocol 0 ["va", "vb", "vc", "vd"] [] 2 "SYSCALL").2.1
      "vc" 0 initialize_system (by decide),
   (c2_entry_and_exit_protocol 0 ["va", "vb", "vc", "vd"] [] 3 "SYSCALL").2.2
      "vd" "p" [] 0 initialize_system (by decide)⟩

/-- C8 counterexample: the line `"EXEC,0"` is not a recognized event form (it
is `EXEC` with no program name), yet it is not silently ignored: `main` calls
`activity.substr(5)` on the 4-character activity `"EXEC"`, which throws
`std::out_of_range` and aborts the run (modelled as `none`). -/
theorem c8_counterexample :
    process_line ["va", "vb", "vc", "vd"] [] [] initial_interp "EXEC,0" = none
    ∧ (parse_trace "EXEC,0").1 = "EXEC"
    ∧ cppSubstrFrom "EXEC" 5 = none :=
  ⟨by decide, by decide, by decide⟩

/-- C8 (amended): every input trace line whose parsed activity is none of the
recognized forms (`CPU`, `FORK`, `IF_CHILD`, `IF_PARENT`, `ENDIF`, `SYSCALL`,
`END_IO`) and does not begin with the four characters `EXEC` is silently
ignored: no handler fires, no log entry is produced, the clock does not
advance, and no state is mutated.  (A line whose activity is exactly `EXEC`,
the prefix with no program name, aborts the run instead.) -/
theorem c8_unrecognized_ignored
    (vectors : List String) (delays : List Int) (efs : List ExternalFile)
    (st : InterpState) (line : String)
    (h1 : (parse_trace line).1 ≠ "CPU") (h2 : (parse_trace line).1 ≠ "FORK")
    (h3 : (parse_trace line).1 ≠ "IF_CHILD")
    (h4 : (parse_trace line).1 ≠ "IF_PARENT")
    (h5 : (parse_trace line).1 ≠ "ENDIF")
    (h6 : (parse_trace line).1.take 4 ≠ "EXEC")
    (h7 : (parse_trace line).1 ≠ "SYSCALL")
    (h8 : (parse_trace line).1 ≠ "END_IO") :
    process_line vectors delays efs st line = some ([], st) := by
  simp only [process_line]
  rw [if_neg h1, if_neg h2, if_neg h3, if_neg h4, if_neg h5, if_neg h6,
    if_neg (not_or.mpr ⟨h7, h8⟩)]

/-- Witness for C8 (amended): a garbage line is skipped with nothing changed. -/
theorem c8_witness :
    process_line ["va", "vb", "vc", "vd"] [] [] initial_interp "GARBAGE,1" =
      some ([], initial_interp) :=
  c8_unrecognized_ignored ["va", "vb", "vc", "vd"] [] [] initial_interp
    "GARBAGE,1" (by decide) (by decide) (by decide) (by decide) (by decide)
    (by decide) (by decide) (by decide)

/-- C9: processing a conditional-block marker (`IF_CHILD`, `IF_PARENT`,
`ENDIF`) touches only the interpreter's block-attribution bookkeeping
(`in_child_block`, `in_parent_block`, `block_pid`): it produces no log entry,
advances the clock by 0, mutates neither the partition table nor the process
table (the whole `SimState` is unchanged), and leaves the current process id
used by later FORK/EXEC events untouched. -/
theorem c9_markers
    (vectors : List String) (delays : List Int) (efs : List ExternalFile)
    (st : InterpState) (line : String)
    (h : (parse_trace line).1 = "IF_CHILD" ∨ (parse_trace line).1 = "IF_PARENT"
      ∨ (parse_trace line).1 = "ENDIF") :
    ∃ st2, process_line vectors delays efs st line = some ([], st2)
      ∧ st2.sys = st.sys
      ∧ st2.current_time = st.current_time
      ∧ st2.current_pid = st.current_pid := by
  simp only [process_line]
  rcases h with h | h | h
  · rw [if_neg (by rw [h]; decide), if_neg (by rw [h]; decide), if_pos h]
    exact ⟨_, rfl, rfl, rfl, rfl⟩
  · rw [if_neg (by rw [h]; decide), if_neg (by rw [h]; decide),
      if_neg (by rw [h]; decide), if_pos h]
    exact ⟨_, rfl, rfl, rfl, rfl⟩
  · rw [if_neg (by rw [h]; decide), if_neg (by rw [h]; decide),
      if_neg (by rw [h]; decide), if_neg (by rw [h]; decide), if_pos h]
    exact ⟨_, rfl, rfl, rfl, rfl⟩

/-- Witness for C9: an `IF_CHILD` marker from the initial state. -/
theorem c9_witness :
    ∃ st2, process_line ["va", "vb", "vc", "vd"] [] [] initial_interp
        "IF_CHILD,1" = some ([], st2)
      ∧ st2.sys = initial_interp.sys
      ∧ st2.current_time = initial_interp.current_time
      ∧ st2.current_pid = initial_interp.current_pid :=
  c9_markers ["va", "vb", "vc", "vd"] [] [] initial_interp "IF_CHILD,1"
    (by decide)

/-- C10: an interrupt number outside the loaded vector table (for
FORK/EXEC/SYSCALL/END_IO), or a SYSCALL/END_IO device number outside the
delay table, aborts the run with no recovery (the handler returns no result
and no output is produced); under the in-range preconditions the lookups
succeed, the handler completes, and the abort branch is unreachable. -/
theorem c10_fatal_indexing
    (t n : Int) (vectors : List String) (delays : List Int)
    (ty name : String) (pid : Int) (s : SimState) (cat : List ExternalFile) :
    (vecAt vectors n = none ↔ ¬(0 ≤ n ∧ n.toNat < vectors.length))
    ∧ (vecAt vectors n = none → handle_interrupt n t vectors delays ty = none)
    ∧ (∀ v, vecAt vectors n = some v → vecAt delays n = none →
        handle_interrupt n t vectors delays ty = none)
    ∧ (∀ v d, vecAt vectors n = some v → vecAt delays n = some d →
        ∃ log t2, handle_interrupt n t vectors delays ty = some (log, t2))
    ∧ (vecAt vectors 2 = none → handle_fork t vectors pid s = none)
    ∧ (∀ v, vecAt vectors 2 = some v →
        ∃ out, handle_fork t vectors pid s = some out)
    ∧ (vecAt vectors 3 = none → handle_exec name t vectors cat pid s = none)
    ∧ (∀ v, vecAt vectors 3 = some v →
        ∃ out, handle_exec name t vectors cat pid s = some out) := by
  refine ⟨vecAt_eq_none_iff vectors n, ?_, ?_, ?_, ?_, ?_, ?_, ?_⟩
  · intro hv
    simp [handle_interrupt, intr_boilerplate, hv]
  · intro v hv hd
    simp [handle_interrupt, intr_boilerplate_eq hv, execute_isr, hd]
  · intro v d hv hd
    have hh : handle_interrupt n t vectors delays ty =
        some (boiler_entries t n v ++ [⟨t + 13, d, ty ++ ": run the ISR"⟩]
            ++ exit_entries (t + 13 + d), t + 13 + d + 12) := by
      simp only [handle_interrupt, intr_boilerplate_eq hv, execute_isr, hd,
        Option.bind_eq_bind, Option.some_bind, exit_sequence_eq]
    exact ⟨_, _, hh⟩
  · intro hv
    simp [handle_fork, intr_boilerplate, hv]
  · intro v hv
    cases hf : s.pcb_table.find? (fun p => p.pid == pid) with
    | none =>
      have hh : handle_fork t vectors pid s =
          some (boiler_entries t 2 v ++ [⟨t + 13, 1, "ERROR: Parent not found"⟩]
              ++ exit_entries (t + 13 + 1), t + 13 + 1 + 12, s) := by
        simp only [handle_fork, intr_boilerplate_eq hv, hf,
          Option.bind_eq_bind, Option.some_bind, exit_sequence_eq]
      exact ⟨_, hh⟩
    | some parent =>
      have hh : handle_fork t vectors pid s =
          some (boiler_entries t 2 v
              ++ [⟨t + 13, 1, "cloning the PCB"⟩,
                  ⟨t + 13 + 1, 0, "scheduler called"⟩]
              ++ exit_entries (t + 13 + 1), t + 13 + 1 + 12,
            { s with
                pcb_table := s.pcb_table
                  ++ [{ parent with pid := s.next_pid, ppid := pid, priority := 1 }]
                parent_child_map := s.parent_child_map ++ [(pid, s.next_pid)]
                ready_queue := s.ready_queue ++ [s.next_pid]
                next_pid := s.next_pid + 1 }) := by
        simp only [handle_fork, intr_boilerplate_eq hv, hf,
          Option.bind_eq_bind, Option.some_bind, exit_sequence_eq]
      exact ⟨_, hh⟩
  · intro hv
    simp [handle_exec, intr_boilerplate, hv]
  · intro v hv
    cases hf : cat.find? (fun f => f.program_name == name) with
    | none =>
      have hh : handle_exec name t vectors cat pid s =
          some (boiler_entries t 3 v ++ [⟨t + 13, 1, "ERROR: Program not found"⟩]
              ++ exit_entries (t + 13 + 1), t + 13 + 1 + 12, s) := by
        simp only [handle_exec, intr_boilerplate_eq hv, hf,
          Option.bind_eq_bind, Option.some_bind, exit_sequence_eq]
      exact ⟨_, hh⟩
    | some file =>
      by_cases hpart : find_available_partition s.partition_table file.size = -1
      · have hh : handle_exec name t vectors cat pid s =
            some (boiler_entries t 3 v ++ [⟨t + 13, 1, "ERROR: No partition"⟩]
                ++ exit_entries (t + 13 + 1), t + 13 + 1 + 12, s) := by
          simp only [handle_exec, intr_boilerplate_eq hv, hf, hpart, if_true,
            Option.bind_eq_bind, Option.some_bind, exit_sequence_eq]
        exact ⟨_, hh⟩
      · have hh : handle_exec name t vectors cat pid s =
            some (boiler_entries t 3 v
                ++ [⟨t + 13, (file.size : Int) * 15,
                      "loading " ++ name ++ " from disk to partition "
                        ++ toString (find_available_partition
                              s.partition_table file.size)⟩,
                    ⟨t + 13 + (file.size : Int) * 15, 1,
                      "marking partition as occupied"⟩,
                    ⟨t + 13 + (file.size : Int) * 15 + 1, 3, "updating PCB"⟩,
                    ⟨t + 13 + (file.size : Int) * 15 + 1 + 3, 0,
                      "scheduler called"⟩]
                ++ exit_entries (t + 13 + (file.size : Int) * 15 + 1 + 3),
              t + 13 + (file.size : Int) * 15 + 1 + 3 + 12,
              { s with
                  partition_table := mark_partition s.partition_table
                    (find_available_partition s.partition_table file.size) name
                  pcb_table := update_pcb s.pcb_table pid name
                    (find_available_partition s.partition_table file.size)
                    (file.size : Int) }) := by
          simp only [handle_exec, intr_boilerplate_eq hv, hf, hpart, if_false,
            Option.bind_eq_bind, Option.some_bind, exit_sequence_eq]
        exact ⟨_, hh⟩

/-- Witness for C10: out-of-range device 5 on a one-entry vector table aborts;
in-range device 0 succeeds. -/
theorem c10_witness :
    handle_interrupt 5 0 ["v0"] [3] "SYSCALL" = none
    ∧ (∃ log t2, handle_interrupt 0 0 ["v0"] [3] "SYSCALL" = some (log, t2))
    ∧ handle_fork 0 ["v0"] 0 initialize_system = none :=
  ⟨(c10_fatal_indexing 0 5 ["v0"] [3] "SYSCALL" "p" 0 initialize_system
      []).2.1 (by decide),
   (c10_fatal_indexing 0 0 ["v0"] [3] "SYSCALL" "p" 0 initialize_system
      []).2.2.2.1 "v0" 3 (by decide) (by decide),
   (c10_fatal_indexing 0 0 ["v0"] [3] "SYSCALL" "p" 0 initialize_system
      []).2.2.2.2.1 (by decide)⟩

end OsSim
